import Mathlib

/-!
Shallow embedding of topiary's redundancy-removal engine and of the window
partitioning inside the NCBI BLAST helper `_construct_args`.

The redundancy module `topiary/quality/redundancy.py` is referenced by its
test suite but its source is not part of this tree, so its definitions are
modelled from the specification (each such definition says so in its doc
comment).  The BLAST window logic is embedded directly from
`topiary/external/ncbi/_ncbi_blast.py`.
-/

namespace Topiary

/-- Running prefix sums.  `cumsum0 a [w1, w2]` is `[a, a + w1, a + w1 + w2]`,
mirroring `np.cumsum` applied to a width list with a `0` inserted in front
(`windows.insert(0,0)` followed by `np.cumsum(windows)` in the source). -/
def cumsum0 (a : Nat) : List Nat → List Nat
  | [] => [a]
  | w :: ws => a :: cumsum0 (a + w) ws

/-- The sequence indices covered when consecutive windows of the given widths
are laid out starting at `s`: the slice semantics of
`sequence_list[windows[i]:windows[i+1]]` over successive boundaries. -/
def coveredIndices (s : Nat) : List Nat → List Nat
  | [] => []
  | w :: ws => List.range' s w ++ coveredIndices (s + w) ws

namespace NcbiBlast

/-- `block_size = num_sequences//num_threads`, then
`if block_size < 1: block_size = 1`, from `_construct_args` in
`topiary/external/ncbi/_ncbi_blast.py`. -/
def block_size (num_sequences num_threads : Nat) : Nat :=
  if num_sequences / num_threads < 1 then 1 else num_sequences / num_threads

/-- The width list `windows` built by `_construct_args` before the cumulative
sum: `num_sequences//block_size` windows of `block_size`, and the remainder
`num_sequences % block_size` either appended as its own window (when
`remainder/block_size > 0.5`, i.e. `2*remainder > block_size`) or all added to
`windows[0]` (the distribution loop `while remainder > 0: windows[counter] += 1`
never increments `counter`, so every unit lands on index `0`). -/
def window_widths (num_sequences num_threads : Nat) : List Nat :=
  let bs := block_size num_sequences num_threads
  let ws := List.replicate (num_sequences / bs) bs
  let remainder := num_sequences % bs
  if 2 * remainder > bs then
    ws ++ [remainder]
  else
    match ws with
    | [] => []
    | w :: rest => (w + remainder) :: rest

/-- `windows = np.cumsum(windows)` after `windows.insert(0,0)`: the cumulative
block boundaries used to slice `sequence_list`. -/
def windows (num_sequences num_threads : Nat) : List Nat :=
  cumsum0 0 (window_widths num_sequences num_threads)

end NcbiBlast

namespace Redundancy

/-- Modelled from the spec: the quality vector of §3, the ordered tuple
`(always_keep_rank, key_species_rank, metric₁ … metricₖ, inverse_length)`;
`metrics` holds everything from index 2 on (the caller metrics followed by the
inverse sequence length), so `qual[2:]` in the source is the `metrics` field. -/
structure QualityVector where
  always_keep_rank : ℚ
  key_species_rank : ℚ
  metrics : List ℚ
deriving DecidableEq

/-- Modelled from the spec: one row of the input table (§3 SequenceRecord and
§6): a sequence string, a species name, an optional always-keep flag (the
column may be absent), the current keep boolean, and the caller-defined
numeric quality metric columns in their fixed order. -/
structure SequenceRecord where
  sequence : List Char
  species : String
  always_keep : Option Bool
  keep : Bool
  metrics : List ℚ
deriving DecidableEq

/-- Placeholder record used only as the default of out-of-range list reads. -/
def defaultRecord : SequenceRecord := ⟨[], "", none, false, []⟩

/-- Placeholder quality vector used only as the default of out-of-range reads. -/
def defaultQual : QualityVector := ⟨1, 1, []⟩

/-- Modelled from the spec: `_get_quality_scores` (§4.1), whose source is not
in this tree.  Builds the quality vector of one record: always-keep rank 0
exactly when the flag is present and true, key-species rank 0 exactly when
the record's species is in the supplied key-species set (empty set gives 1),
the metric columns copied verbatim, and `1/len(sequence)` appended; an empty
sequence is an input error (zero-length denominator). -/
def _get_quality_scores (row : SequenceRecord) (key_species : List String) :
    Except String QualityVector :=
  if row.sequence.length = 0 then
    .error "sequence is missing or empty"
  else
    .ok ⟨if row.always_keep = some true then 0 else 1,
         if row.species ∈ key_species then 0 else 1,
         row.metrics ++ [(1 : ℚ) / (row.sequence.length : ℚ)]⟩

/-- Number of positions at which the two sequences carry the same residue,
compared position by position over the overlap. -/
def match_count : List Char → List Char → Nat
  | a :: as, b :: bs => (if a = b then 1 else 0) + match_count as bs
  | _, _ => 0

/-- Modelled from the spec: fractional identity (§4.2 step 1), the literal
positional match count divided by the compared length.  The §8 truncation
scenario forces the compared length to be the shorter of the two sequence
lengths (a truncated but otherwise identical sequence must come out fully
identical), so the denominator is `min |A| |B|`. -/
def fractional_identity (A_seq B_seq : List Char) : ℚ :=
  (match_count A_seq B_seq : ℚ) / ((min A_seq.length B_seq.length : Nat) : ℚ)

/-- Modelled from the spec: the element-wise tie-break of §4.2 step 3d over
`qual[2:]`: at the first differing index the smaller value is retained and
the other side is marked for removal; if every element ties, the lower-index
sequence (the first argument) is retained. -/
def tiebreak : List ℚ → List ℚ → Bool × Bool
  | a :: as, b :: bs =>
    if a < b then (true, false)
    else if b < a then (false, true)
    else tiebreak as bs
  | _, _ => (true, false)

/-- Modelled from the spec: `_compare_seqs` (§4.2), whose source is not in
this tree.  Pure pairwise decision: below-cutoff pairs keep both; then the
precedence ladder: both always-keep, exactly one always-keep, key-species
protection (only when `discard_key` is false), and finally the quality
tie-break over `qual[2:]`. -/
def _compare_seqs (A_seq B_seq : List Char) (A_qual B_qual : QualityVector)
    (cutoff : ℚ) (discard_key : Bool) : Bool × Bool :=
  if fractional_identity A_seq B_seq < cutoff then (true, true)
  else if A_qual.always_keep_rank = 0 ∧ B_qual.always_keep_rank = 0 then (true, true)
  else if A_qual.always_keep_rank = 0 ∨ B_qual.always_keep_rank = 0 then (true, true)
  else if discard_key = false ∧
          (A_qual.key_species_rank = 0 ∨ B_qual.key_species_rank = 0) then (true, true)
  else tiebreak A_qual.metrics B_qual.metrics

/-- Modelled from the spec: the named small-problem threshold of §9 ("skip
parallel dispatch for small problems"); problems with fewer `i<j` pairs than
this are handled by a single worker. -/
def _SMALL_PROBLEM_CUTOFF : Nat := 50

/-- Modelled from the spec: a work block (§3 WorkBlock), the rectangle
`i_block × j_block` of the pair index space handed to one worker; the worker
restricts to `i < j`. -/
structure WorkBlock where
  i_block : Nat × Nat
  j_block : Nat × Nat
deriving DecidableEq

/-- Modelled from the spec: the work partitioner `_construct_args` (§4.3) of
the redundancy module, whose source is not in this tree.  If the total pair
count `n(n-1)/2` is below the small-problem threshold, or the requested
thread count exceeds what the problem can usefully use (more threads than
rows), it forces a single block spanning `[0,n)×[0,n)` with an effective
thread count of `1`; otherwise it partitions `[0,n)` into `num_threads`
contiguous row ranges (boundaries `k*n/num_threads`), each paired with the
full column range `[0,n)`. -/
def _construct_args (n num_threads : Nat) : List WorkBlock × Nat :=
  if n * (n - 1) / 2 < _SMALL_PROBLEM_CUTOFF ∨ num_threads > n then
    ([⟨(0, n), (0, n)⟩], 1)
  else
    ((List.range num_threads).map fun k =>
      ⟨(k * n / num_threads, (k + 1) * n / num_threads), (0, n)⟩,
     num_threads)

/-- The `i<j` pairs enumerated by one work block, in the worker's loop order. -/
def blockPairs (b : WorkBlock) : List (Nat × Nat) :=
  (List.range' b.i_block.1 (b.i_block.2 - b.i_block.1)).flatMap fun i =>
    (List.range' b.j_block.1 (b.j_block.2 - b.j_block.1)).filterMap fun j =>
      if i < j then some (i, j) else none

/-- The full upper-triangle pair list `{(i,j) : 0 ≤ i < j < n}` in row-major
order. -/
def allPairs (n : Nat) : List (Nat × Nat) :=
  (List.range n).flatMap fun i =>
    (List.range n).filterMap fun j => if i < j then some (i, j) else none

/-- Modelled from the spec: applying one comparator verdict to the shared keep
state (§4.4): a `false` verdict sets the corresponding entry to `false`, a
`true` verdict changes nothing. -/
def applyVerdict (keep : List Bool) (i : Nat) (v : Bool) : List Bool :=
  if v then keep else keep.set i false

/-- Modelled from the spec: one iteration of the worker loop (§4.4): skip the
pair when both keep entries are already false, otherwise invoke the comparator
and apply both verdicts. -/
def stepPair (seqs : List (List Char)) (quals : List QualityVector)
    (cutoff : ℚ) (discard_key : Bool) (keep : List Bool) (p : Nat × Nat) :
    List Bool :=
  if keep.getD p.1 false = false ∧ keep.getD p.2 false = false then keep
  else
    let r := _compare_seqs (seqs.getD p.1 []) (seqs.getD p.2 [])
      (quals.getD p.1 defaultQual) (quals.getD p.2 defaultQual) cutoff discard_key
    applyVerdict (applyVerdict keep p.1 r.1) p.2 r.2

/-- Modelled from the spec: `_redundancy_thread_function` (§4.4), whose source
is not in this tree.  Processes a list of pairs against the shared keep
state.  All comparisons are independent and the writes monotone, so the
parallel run over blocks is modelled by the sequential fold over every
block's pairs. -/
def _redundancy_thread_function (seqs : List (List Char))
    (quals : List QualityVector) (cutoff : ℚ) (discard_key : Bool)
    (keep : List Bool) (pairs : List (Nat × Nat)) : List Bool :=
  pairs.foldl (stepPair seqs quals cutoff discard_key) keep

/-- Sequentially evaluate an `Except`-valued function over a list, stopping at
the first error (the loop building one quality vector per row). -/
def mapExcept (f : α → Except String β) : List α → Except String (List β)
  | [] => .ok []
  | x :: xs =>
    match f x with
    | .error e => .error e
    | .ok y =>
      match mapExcept f xs with
      | .error e => .error e
      | .ok ys => .ok (y :: ys)

/-- Modelled from the spec: thread-count resolution (§4.5 step 2, mirroring
the validation in `_construct_args` of `_ncbi_blast.py`): the count must be
an integer at least `-1`, zero is rejected, `-1` means use all available
hardware concurrency, and a request beyond the core count is clamped to it. -/
def resolve_num_threads (num_threads : Int) (num_cores : Nat) :
    Except String Nat :=
  if num_threads < -1 then .error "num_threads must be an integer >= -1"
  else if num_threads = 0 then .error "num_threads cannot be zero"
  else if num_threads = -1 ∨ num_threads > (num_cores : Int) then .ok num_cores
  else .ok num_threads.toNat

/-- Modelled from the spec: the fail-fast argument validation of
`remove_redundancy` (§4.5 steps 1-2, §6): `cutoff` must lie in `[0,1]` and
the thread count must resolve; both checks run before any computation. -/
def _check_args (cutoff : ℚ) (num_threads : Int) (num_cores : Nat) :
    Except String Nat :=
  if cutoff < 0 ∨ 1 < cutoff then .error "cutoff must be between 0 and 1"
  else resolve_num_threads num_threads num_cores

/-- Modelled from the spec: the orchestrator `remove_redundancy` (§4.5),
whose source is not in this tree.  Validates arguments, builds one quality
vector per row, takes the initial keep state from the keep column, requests
blocks from the partitioner, runs the worker over every block's pairs, and
returns a new copy of the table with the merged keep state written back.
`num_cores` stands for the machine's hardware concurrency and `silent` only
suppresses progress reporting, so neither changes the result. -/
def remove_redundancy (df : List SequenceRecord) (cutoff : ℚ)
    (key_species : List String) (discard_key : Bool) (num_threads : Int)
    (num_cores : Nat) (silent : Bool) : Except String (List SequenceRecord) :=
  match _check_args cutoff num_threads num_cores with
  | .error e => .error e
  | .ok t =>
    match mapExcept (fun row => _get_quality_scores row key_species) df with
    | .error e => .error e
    | .ok quals =>
      let seqs := df.map (fun r => r.sequence)
      let keep0 := df.map (fun r => r.keep)
      let pairs := (_construct_args df.length t).1.flatMap blockPairs
      let keep1 := _redundancy_thread_function seqs quals cutoff discard_key
        keep0 pairs
      .ok (df.zipWith (fun row k => ⟨row.sequence, row.species,
        row.always_keep, k, row.metrics⟩) keep1)

/-- Number of surviving records: entries of the table whose keep flag is set. -/
def keepCount (df : List SequenceRecord) : Nat :=
  df.countP (fun r => r.keep)

end Redundancy

/-! ## General lemmas about prefix sums and interval tilings -/

theorem coveredIndices_eq_range' (ws : List Nat) (s : Nat) :
    coveredIndices s ws = List.range' s ws.sum := by
  induction ws generalizing s with
  | nil => simp [coveredIndices]
  | cons w ws ih =>
    have h := List.range'_append s w ws.sum 1
    rw [Nat.one_mul] at h
    simp only [coveredIndices, ih, List.sum_cons]
    rw [h, Nat.add_comm ws.sum w]

theorem cumsum0_head (a : Nat) (ws : List Nat) : (cumsum0 a ws).head? = some a := by
  cases ws <;> rfl

theorem cumsum0_getLast (a : Nat) (ws : List Nat) :
    (cumsum0 a ws).getLast? = some (a + ws.sum) := by
  induction ws generalizing a with
  | nil => simp [cumsum0]
  | cons w ws ih =>
    rw [cumsum0, List.getLast?_cons, ih, List.sum_cons]
    simp [Nat.add_assoc]

theorem cumsum0_chain' (a : Nat) (ws : List Nat) :
    (cumsum0 a ws).Chain' (· ≤ ·) := by
  induction ws generalizing a with
  | nil => simp [cumsum0]
  | cons w ws ih =>
    rw [cumsum0, List.chain'_cons']
    refine ⟨?_, ih (a + w)⟩
    intro y hy
    rw [cumsum0_head] at hy
    simp only [Option.mem_def, Option.some.injEq] at hy
    omega

theorem flatMap_range'_boundaries (f : Nat → Nat) (hf : ∀ k, f k ≤ f (k + 1))
    (t : Nat) :
    (List.range t).flatMap (fun k => List.range' (f k) (f (k + 1) - f k)) =
      List.range' (f 0) (f t - f 0) := by
  have hmono : Monotone f := monotone_nat_of_le_succ hf
  induction t with
  | zero => simp
  | succ t ih =>
    rw [List.range_succ, List.flatMap_append, ih]
    simp only [List.flatMap_cons, List.flatMap_nil, List.append_nil]
    have h0t : f 0 ≤ f t := hmono (Nat.zero_le t)
    have htt : f t ≤ f (t + 1) := hf t
    have h := List.range'_append (f 0) (f t - f 0) (f (t + 1) - f t) 1
    rw [Nat.one_mul, Nat.add_sub_cancel' h0t] at h
    rw [h]
    congr 1
    omega

/-! ## BLAST window partitioning (`_construct_args` in `_ncbi_blast.py`) -/

theorem block_size_pos (n t : Nat) : 1 ≤ NcbiBlast.block_size n t := by
  unfold NcbiBlast.block_size
  split <;> omega

theorem block_size_le (n t : Nat) (hn : 1 ≤ n) :
    NcbiBlast.block_size n t ≤ n := by
  unfold NcbiBlast.block_size
  split
  · omega
  · exact Nat.div_le_self n t

theorem window_widths_sum (n t : Nat) (hn : 1 ≤ n) :
    (NcbiBlast.window_widths n t).sum = n := by
  have hbs := block_size_pos n t
  have hle := block_size_le n t hn
  have hq : 1 ≤ n / NcbiBlast.block_size n t :=
    (Nat.one_le_div_iff hbs).2 hle
  have hmod := Nat.div_add_mod n (NcbiBlast.block_size n t)
  simp only [NcbiBlast.window_widths]
  split
  · rw [List.sum_append, List.sum_replicate, smul_eq_mul,
      Nat.mul_comm (n / NcbiBlast.block_size n t) (NcbiBlast.block_size n t)]
    simp only [List.sum_cons, List.sum_nil]
    omega
  · obtain ⟨m, hm⟩ : ∃ m, n / NcbiBlast.block_size n t = m + 1 :=
      ⟨n / NcbiBlast.block_size n t - 1, by omega⟩
    rw [hm, Nat.mul_succ] at hmod
    rw [hm, List.replicate_succ]
    simp only [List.sum_cons, List.sum_replicate, smul_eq_mul,
      Nat.mul_comm m (NcbiBlast.block_size n t)]
    omega

theorem window_widths_absorb (n t : Nat) (hn : 1 ≤ n)
    (h : 2 * (n % NcbiBlast.block_size n t) ≤ NcbiBlast.block_size n t) :
    NcbiBlast.window_widths n t =
      (NcbiBlast.block_size n t + n % NcbiBlast.block_size n t) ::
        List.replicate (n / NcbiBlast.block_size n t - 1)
          (NcbiBlast.block_size n t) := by
  have hbs := block_size_pos n t
  have hle := block_size_le n t hn
  have hq : 1 ≤ n / NcbiBlast.block_size n t :=
    (Nat.one_le_div_iff hbs).2 hle
  obtain ⟨m, hm⟩ : ∃ m, n / NcbiBlast.block_size n t = m + 1 :=
    ⟨n / NcbiBlast.block_size n t - 1, by omega⟩
  simp only [NcbiBlast.window_widths]
  rw [if_neg (by omega), hm, List.replicate_succ]
  simp [hm]

theorem window_widths_extra (n t : Nat)
    (h : 2 * (n % NcbiBlast.block_size n t) > NcbiBlast.block_size n t) :
    NcbiBlast.window_widths n t =
      List.replicate (n / NcbiBlast.block_size n t) (NcbiBlast.block_size n t)
        ++ [n % NcbiBlast.block_size n t] := by
  simp only [NcbiBlast.window_widths]
  rw [if_pos h]

/-- Claim C10: in the BLAST work partitioner `_construct_args`, for every
non-empty `sequence_list` and valid thread count, the cumulative window
boundaries are nondecreasing, start at `0`, and end at `len(sequence_list)`,
so every input sequence index falls in exactly one per-thread block (laying
the windows out consecutively enumerates `0, …, n-1` exactly once); and when
the leftover remainder of `len(sequence_list)` modulo the block size is at
most half a block, the entire remainder is absorbed by the first window alone
(the distribution loop never advances past index `0`), otherwise the
remainder forms one extra window of its own. -/
theorem blast_windows_spec (n t : Nat) (hn : 1 ≤ n) (ht : 1 ≤ t) :
    (NcbiBlast.windows n t).head? = some 0 ∧
    (NcbiBlast.windows n t).getLast? = some n ∧
    (NcbiBlast.windows n t).Chain' (· ≤ ·) ∧
    coveredIndices 0 (NcbiBlast.window_widths n t) = List.range n ∧
    (2 * (n % NcbiBlast.block_size n t) ≤ NcbiBlast.block_size n t →
      NcbiBlast.window_widths n t =
        (NcbiBlast.block_size n t + n % NcbiBlast.block_size n t) ::
          List.replicate (n / NcbiBlast.block_size n t - 1)
            (NcbiBlast.block_size n t)) ∧
    (2 * (n % NcbiBlast.block_size n t) > NcbiBlast.block_size n t →
      NcbiBlast.window_widths n t =
        List.replicate (n / NcbiBlast.block_size n t)
          (NcbiBlast.block_size n t) ++ [n % NcbiBlast.block_size n t]) := by
  refine ⟨cumsum0_head 0 _, ?_, cumsum0_chain' 0 _, ?_, ?_, ?_⟩
  · rw [NcbiBlast.windows, cumsum0_getLast, window_widths_sum n t hn,
      Nat.zero_add]
  · rw [coveredIndices_eq_range', window_widths_sum n t hn,
      List.range_eq_range']
  · exact window_widths_absorb n t hn
  · exact window_widths_extra n t

/-- Concrete instance of `blast_windows_spec` at `n = 5`, `t = 2`: the widths
are `[3, 2]` and the boundaries `[0, 3, 5]`. -/
theorem blast_windows_spec_witness :
    (NcbiBlast.windows 5 2).head? = some 0 ∧
    (NcbiBlast.windows 5 2).getLast? = some 5 ∧
    (NcbiBlast.windows 5 2).Chain' (· ≤ ·) ∧
    coveredIndices 0 (NcbiBlast.window_widths 5 2) = List.range 5 ∧
    (2 * (5 % NcbiBlast.block_size 5 2) ≤ NcbiBlast.block_size 5 2 →
      NcbiBlast.window_widths 5 2 =
        (NcbiBlast.block_size 5 2 + 5 % NcbiBlast.block_size 5 2) ::
          List.replicate (5 / NcbiBlast.block_size 5 2 - 1)
            (NcbiBlast.block_size 5 2)) ∧
    (2 * (5 % NcbiBlast.block_size 5 2) > NcbiBlast.block_size 5 2 →
      NcbiBlast.window_widths 5 2 =
        List.replicate (5 / NcbiBlast.block_size 5 2)
          (NcbiBlast.block_size 5 2) ++ [5 % NcbiBlast.block_size 5 2]) :=
  blast_windows_spec 5 2 (by decide) (by decide)

/-! ## Redundancy work partitioner: exact coverage of the upper triangle -/

theorem blockPairs_row_block (a b n : Nat) :
    Redundancy.blockPairs ⟨(a, b), (0, n)⟩ =
      (List.range' a (b - a)).flatMap (fun i =>
        (List.range n).filterMap fun j =>
          if i < j then some (i, j) else none) := by
  simp [Redundancy.blockPairs, List.range_eq_range']

theorem construct_args_cover (n t : Nat) (ht : 1 ≤ t) :
    (Redundancy._construct_args n t).1.flatMap Redundancy.blockPairs =
      Redundancy.allPairs n := by
  have hall : Redundancy.allPairs n =
      (List.range' 0 n).flatMap (fun i =>
        (List.range n).filterMap fun j =>
          if i < j then some (i, j) else none) := by
    rw [Redundancy.allPairs, List.range_eq_range']
  rw [Redundancy._construct_args]
  split
  · rw [List.flatMap_cons, List.flatMap_nil, List.append_nil,
      blockPairs_row_block, hall, Nat.sub_zero]
  · next h =>
    push_neg at h
    obtain ⟨-, htn⟩ := h
    have hstep : ∀ k : Nat, k * n / t ≤ (k + 1) * n / t := fun k =>
      Nat.div_le_div_right (Nat.mul_le_mul_right n (Nat.le_succ k))
    have hf0 : 0 * n / t = 0 := by rw [Nat.zero_mul, Nat.zero_div]
    have hft : t * n / t = n := by
      rw [Nat.mul_comm, Nat.mul_div_cancel _ (by omega : 0 < t)]
    calc ((List.range t).map fun k =>
            (⟨(k * n / t, (k + 1) * n / t), (0, n)⟩ :
              Redundancy.WorkBlock)).flatMap Redundancy.blockPairs
        = (List.range t).flatMap (fun k =>
            (List.range' (k * n / t) ((k + 1) * n / t - k * n / t)).flatMap
              fun i => (List.range n).filterMap fun j =>
                if i < j then some (i, j) else none) := by
          rw [List.flatMap_map]
          simp only [blockPairs_row_block]
      _ = ((List.range t).flatMap fun k =>
            List.range' (k * n / t) ((k + 1) * n / t - k * n / t)).flatMap
              (fun i => (List.range n).filterMap fun j =>
                if i < j then some (i, j) else none) := by
          rw [List.flatMap_assoc]
      _ = Redundancy.allPairs n := by
          rw [flatMap_range'_boundaries (fun k => k * n / t) hstep t, hf0, hft,
            Nat.sub_zero, hall]

theorem mem_allPairs (n : Nat) (p : Nat × Nat) :
    p ∈ Redundancy.allPairs n ↔ p.1 < p.2 ∧ p.2 < n := by
  obtain ⟨i, j⟩ := p
  simp only [Redundancy.allPairs, List.mem_flatMap, List.mem_filterMap,
    List.mem_range]
  constructor
  · rintro ⟨a, ha, b, hb, hab⟩
    by_cases h : a < b
    · rw [if_pos h] at hab
      obtain ⟨rfl, rfl⟩ : a = i ∧ b = j := by
        simpa using hab
      exact ⟨h, hb⟩
    · rw [if_neg h] at hab
      exact absurd hab (by simp)
  · rintro ⟨hij, hj⟩
    exact ⟨i, lt_trans hij hj, j, hj, by rw [if_pos hij]⟩

theorem allPairs_first_eq (n i : Nat) (p : Nat × Nat)
    (hp : p ∈ (List.range n).filterMap fun j =>
      if i < j then some (i, j) else none) : p.1 = i := by
  simp only [List.mem_filterMap, List.mem_range] at hp
  obtain ⟨j, -, hj⟩ := hp
  by_cases h : i < j
  · rw [if_pos h] at hj
    obtain rfl : (i, j) = p := Option.some.inj hj
    rfl
  · rw [if_neg h] at hj
    exact absurd hj (by simp)

theorem allPairs_nodup (n : Nat) : (Redundancy.allPairs n).Nodup := by
  rw [Redundancy.allPairs, List.nodup_flatMap]
  constructor
  · intro i _
    refine List.Nodup.filterMap ?_ (List.nodup_range n)
    intro a a' b hb hb'
    by_cases h : i < a
    · rw [if_pos h] at hb
      by_cases h' : i < a'
      · rw [if_pos h'] at hb'
        simp only [Option.mem_def, Option.some.injEq] at hb hb'
        rw [← hb] at hb'
        injection hb' with h1 h2
        exact h2.symm
      · rw [if_neg h'] at hb'
        exact absurd hb' (by simp)
    · rw [if_neg h] at hb
      exact absurd hb (by simp)
  · refine List.Pairwise.imp ?_ (List.pairwise_lt_range n)
    intro a b hab
    intro x hx hx'
    have h1 := allPairs_first_eq n a x hx
    have h2 := allPairs_first_eq n b x hx'
    omega

/-- Claim C1: for every record count `n` and every requested thread count,
iterating the `i<j` pairs of all blocks returned by the work partitioner
yields exactly the set `{(i,j) : 0 ≤ i < j < n}`, each pair exactly once
(the concatenation equals the duplicate-free full triangle list); this holds
also when the small-problem heuristic forces a single block spanning
`[0,n)×[0,n)` with an effective thread count of `1`. -/
theorem construct_args_partition_coverage (n t : Nat) (ht : 1 ≤ t) :
    (Redundancy._construct_args n t).1.flatMap Redundancy.blockPairs =
      Redundancy.allPairs n ∧
    (Redundancy.allPairs n).Nodup ∧
    (∀ p : Nat × Nat, p ∈ Redundancy.allPairs n ↔ p.1 < p.2 ∧ p.2 < n) ∧
    (n * (n - 1) / 2 < Redundancy._SMALL_PROBLEM_CUTOFF ∨ t > n →
      Redundancy._construct_args n t = ([⟨(0, n), (0, n)⟩], 1)) := by
  refine ⟨construct_args_cover n t ht, allPairs_nodup n, mem_allPairs n, ?_⟩
  intro h
  rw [Redundancy._construct_args, if_pos h]

/-- Concrete instance of `construct_args_partition_coverage` at `n = 4`,
`t = 2`: the small-problem heuristic fires (6 pairs), a single block is
returned, and its pairs are the 6 pairs of the full triangle. -/
theorem construct_args_partition_coverage_witness :
    (Redundancy._construct_args 4 2).1.flatMap Redundancy.blockPairs =
      Redundancy.allPairs 4 ∧
    (Redundancy.allPairs 4).Nodup ∧
    (∀ p : Nat × Nat, p ∈ Redundancy.allPairs 4 ↔ p.1 < p.2 ∧ p.2 < 4) ∧
    (4 * (4 - 1) / 2 < Redundancy._SMALL_PROBLEM_CUTOFF ∨ 2 > 4 →
      Redundancy._construct_args 4 2 = ([⟨(0, 4), (0, 4)⟩], 1)) :=
  construct_args_partition_coverage 4 2 (by decide)

/-! ## The pairwise comparator -/

theorem tiebreak_ne_both_true (xs ys : List ℚ) :
    Redundancy.tiebreak xs ys ≠ (true, true) := by
  induction xs generalizing ys with
  | nil => cases ys <;> simp [Redundancy.tiebreak]
  | cons a as ih =>
    cases ys with
    | nil => simp [Redundancy.tiebreak]
    | cons b bs =>
      rw [Redundancy.tiebreak]
      split
      · simp
      · split
        · simp
        · exact ih bs

theorem tiebreak_all_eq (xs ys : List ℚ) (hlen : xs.length = ys.length)
    (h : ∀ k, k < xs.length → xs.getD k 0 = ys.getD k 0) :
    Redundancy.tiebreak xs ys = (true, false) := by
  induction xs generalizing ys with
  | nil => cases ys <;> simp [Redundancy.tiebreak]
  | cons a as ih =>
    cases ys with
    | nil => simp [Redundancy.tiebreak]
    | cons b bs =>
      have hab : a = b := by simpa using h 0 (Nat.succ_pos as.length)
      subst hab
      rw [Redundancy.tiebreak, if_neg (lt_irrefl a), if_neg (lt_irrefl a)]
      refine ih bs (by simpa using hlen) ?_
      intro k hk
      simpa using h (k + 1) (by simpa using Nat.succ_lt_succ hk)

theorem tiebreak_first_diff (xs : List ℚ) :
    ∀ (ys : List ℚ) (i : Nat), i < xs.length → xs.length = ys.length →
    (∀ k, k < i → xs.getD k 0 = ys.getD k 0) →
    xs.getD i 0 ≠ ys.getD i 0 →
    Redundancy.tiebreak xs ys =
      if xs.getD i 0 < ys.getD i 0 then (true, false) else (false, true) := by
  induction xs with
  | nil =>
    intro ys i hi
    exact absurd hi (by simp)
  | cons a as ih =>
    intro ys i hi hlen hpre hne
    cases ys with
    | nil => simp at hlen
    | cons b bs =>
      cases i with
      | zero =>
        simp only [List.getD_cons_zero] at hne ⊢
        rw [Redundancy.tiebreak]
        rcases lt_trichotomy a b with h | h | h
        · rw [if_pos h, if_pos h]
        · exact absurd h hne
        · rw [if_neg (not_lt.2 h.le), if_pos h, if_neg (not_lt.2 h.le)]
      | succ i =>
        have hab : a = b := by simpa using hpre 0 (Nat.succ_pos i)
        subst hab
        rw [Redundancy.tiebreak, if_neg (lt_irrefl a), if_neg (lt_irrefl a)]
        simp only [List.getD_cons_succ] at hne ⊢
        refine ih bs i (by simpa using hi) (by simpa using hlen) ?_ hne
        intro k hk
        simpa using hpre (k + 1) (Nat.succ_lt_succ hk)

theorem compare_seqs_reaches_tiebreak (A_seq B_seq : List Char)
    (qA qB : Redundancy.QualityVector) (c : ℚ) (dk : Bool)
    (hred : ¬ Redundancy.fractional_identity A_seq B_seq < c)
    (ha : qA.always_keep_rank ≠ 0) (hb : qB.always_keep_rank ≠ 0)
    (hk : dk = true ∨
      (qA.key_species_rank ≠ 0 ∧ qB.key_species_rank ≠ 0)) :
    Redundancy._compare_seqs A_seq B_seq qA qB c dk =
      Redundancy.tiebreak qA.metrics qB.metrics := by
  rw [Redundancy._compare_seqs, if_neg hred,
    if_neg (fun h => ha h.1), if_neg (fun h => h.elim ha hb), if_neg ?_]
  rintro ⟨hdk, hks⟩
  rcases hk with hk | ⟨h1, h2⟩
  · rw [hk] at hdk
    exact Bool.noConfusion hdk
  · exact hks.elim h1 h2

/-- Claim C2: for every redundant pair (identity ≥ cutoff) where neither side
is always-keep-protected and key-species protection does not apply,
`_compare_seqs` compares `qualA[2:]` against `qualB[2:]` element-wise in
fixed order and, at the first differing index, returns keep = true for the
side with the smaller value and keep = false for the other; if every element
ties, the lower-index sequence (the first argument) is retained and the
other gets false — no such pair is ever left with both verdicts true. -/
theorem compare_seqs_tiebreak_total (A_seq B_seq : List Char)
    (qA qB : Redundancy.QualityVector) (c : ℚ) (dk : Bool)
    (hred : ¬ Redundancy.fractional_identity A_seq B_seq < c)
    (ha : qA.always_keep_rank ≠ 0) (hb : qB.always_keep_rank ≠ 0)
    (hk : dk = true ∨
      (qA.key_species_rank ≠ 0 ∧ qB.key_species_rank ≠ 0))
    (hlen : qA.metrics.length = qB.metrics.length) :
    (∀ i, i < qA.metrics.length →
      (∀ k, k < i → qA.metrics.getD k 0 = qB.metrics.getD k 0) →
      qA.metrics.getD i 0 ≠ qB.metrics.getD i 0 →
      Redundancy._compare_seqs A_seq B_seq qA qB c dk =
        if qA.metrics.getD i 0 < qB.metrics.getD i 0 then (true, false)
        else (false, true)) ∧
    ((∀ k, k < qA.metrics.length →
        qA.metrics.getD k 0 = qB.metrics.getD k 0) →
      Redundancy._compare_seqs A_seq B_seq qA qB c dk = (true, false)) ∧
    Redundancy._compare_seqs A_seq B_seq qA qB c dk ≠ (true, true) := by
  rw [compare_seqs_reaches_tiebreak A_seq B_seq qA qB c dk hred ha hb hk]
  exact ⟨fun i hi hpre hne =>
      tiebreak_first_diff qA.metrics qB.metrics i hi hlen hpre hne,
    tiebreak_all_eq qA.metrics qB.metrics hlen,
    tiebreak_ne_both_true qA.metrics qB.metrics⟩

/-- Concrete instance of `compare_seqs_tiebreak_total`: identical one-letter
sequences at cutoff `0`, quality tails `[2]` and `[3]`; the pair is redundant,
unprotected, and the first metric decides. -/
theorem compare_seqs_tiebreak_total_witness :
    (∀ i, i < (Redundancy.QualityVector.mk 1 1 [2]).metrics.length →
      (∀ k, k < i → (Redundancy.QualityVector.mk 1 1 [2]).metrics.getD k 0 =
        (Redundancy.QualityVector.mk 1 1 [3]).metrics.getD k 0) →
      (Redundancy.QualityVector.mk 1 1 [2]).metrics.getD i 0 ≠
        (Redundancy.QualityVector.mk 1 1 [3]).metrics.getD i 0 →
      Redundancy._compare_seqs ['T'] ['T'] ⟨1, 1, [2]⟩ ⟨1, 1, [3]⟩ 0 false =
        if (Redundancy.QualityVector.mk 1 1 [2]).metrics.getD i 0 <
            (Redundancy.QualityVector.mk 1 1 [3]).metrics.getD i 0 then
          (true, false)
        else (false, true)) ∧
    ((∀ k, k < (Redundancy.QualityVector.mk 1 1 [2]).metrics.length →
        (Redundancy.QualityVector.mk 1 1 [2]).metrics.getD k 0 =
          (Redundancy.QualityVector.mk 1 1 [3]).metrics.getD k 0) →
      Redundancy._compare_seqs ['T'] ['T'] ⟨1, 1, [2]⟩ ⟨1, 1, [3]⟩ 0 false =
        (true, false)) ∧
    Redundancy._compare_seqs ['T'] ['T'] ⟨1, 1, [2]⟩ ⟨1, 1, [3]⟩ 0 false ≠
      (true, true) :=
  compare_seqs_tiebreak_total ['T'] ['T'] ⟨1, 1, [2]⟩ ⟨1, 1, [3]⟩ 0 false
    (by
      simp only [Redundancy.fractional_identity]
      exact not_lt.2 (by positivity))
    (by norm_num) (by norm_num) (Or.inr ⟨by norm_num, by norm_num⟩)
    (by decide)

/-! ## Comparator protection branches -/

theorem compare_seqs_below_cutoff (A_seq B_seq : List Char)
    (qA qB : Redundancy.QualityVector) (c : ℚ) (dk : Bool)
    (h : Redundancy.fractional_identity A_seq B_seq < c) :
    Redundancy._compare_seqs A_seq B_seq qA qB c dk = (true, true) := by
  rw [Redundancy._compare_seqs, if_pos h]

theorem compare_seqs_always_keep_protects (A_seq B_seq : List Char)
    (qA qB : Redundancy.QualityVector) (c : ℚ) (dk : Bool)
    (h : qA.always_keep_rank = 0 ∨ qB.always_keep_rank = 0) :
    Redundancy._compare_seqs A_seq B_seq qA qB c dk = (true, true) := by
  rw [Redundancy._compare_seqs]
  by_cases h1 : Redundancy.fractional_identity A_seq B_seq < c
  · rw [if_pos h1]
  · rw [if_neg h1]
    by_cases h2 : qA.always_keep_rank = 0 ∧ qB.always_keep_rank = 0
    · rw [if_pos h2]
    · rw [if_neg h2, if_pos h]

theorem compare_seqs_key_protects (A_seq B_seq : List Char)
    (qA qB : Redundancy.QualityVector) (c : ℚ)
    (hred : ¬ Redundancy.fractional_identity A_seq B_seq < c)
    (ha : qA.always_keep_rank ≠ 0) (hb : qB.always_keep_rank ≠ 0)
    (hks : qA.key_species_rank = 0 ∨ qB.key_species_rank = 0) :
    Redundancy._compare_seqs A_seq B_seq qA qB c false = (true, true) := by
  rw [Redundancy._compare_seqs, if_neg hred, if_neg (fun h => ha h.1),
    if_neg (fun h => h.elim ha hb), if_pos ⟨rfl, hks⟩]

theorem compare_seqs_fst_of_key (A_seq B_seq : List Char)
    (qA qB : Redundancy.QualityVector) (c : ℚ)
    (h : qA.key_species_rank = 0) :
    (Redundancy._compare_seqs A_seq B_seq qA qB c false).1 = true := by
  rw [Redundancy._compare_seqs]
  split
  · rfl
  · split
    · rfl
    · split
      · rfl
      · rw [if_pos ⟨rfl, Or.inl h⟩]

theorem compare_seqs_snd_of_key (A_seq B_seq : List Char)
    (qA qB : Redundancy.QualityVector) (c : ℚ)
    (h : qB.key_species_rank = 0) :
    (Redundancy._compare_seqs A_seq B_seq qA qB c false).2 = true := by
  rw [Redundancy._compare_seqs]
  split
  · rfl
  · split
    · rfl
    · split
      · rfl
      · rw [if_pos ⟨rfl, Or.inr h⟩]

/-! ## Keep-state plumbing -/

theorem getD_map_of_lt (f : α → β) (l : List α) (i : Nat)
    (hi : i < l.length) (d : α) (d' : β) :
    (l.map f).getD i d' = f (l.getD i d) := by
  rw [List.getD_eq_getElem _ _ (by simpa using hi),
    List.getD_eq_getElem _ _ hi, List.getElem_map]

theorem getD_set_false (keep : List Bool) (j i : Nat) :
    (keep.set j false).getD i false = keep.getD i false ∨
    (keep.set j false).getD i false = false := by
  by_cases h : i = j
  · subst h
    by_cases hi : i < keep.length
    · right
      rw [List.getD_eq_getElem _ _ (by simpa using hi),
        List.getElem_set_self]
    · left
      rw [List.set_eq_of_length_le (by omega)]
  · left
    rw [List.getD_eq_getElem?_getD, List.getD_eq_getElem?_getD,
      List.getElem?_set_ne (fun hh => h hh.symm)]

theorem applyVerdict_length (keep : List Bool) (i : Nat) (v : Bool) :
    (Redundancy.applyVerdict keep i v).length = keep.length := by
  rw [Redundancy.applyVerdict]
  split
  · rfl
  · exact List.length_set keep i false

theorem getD_applyVerdict_other (keep : List Bool) (j : Nat) (v : Bool)
    (i : Nat) (h : i ≠ j) :
    (Redundancy.applyVerdict keep j v).getD i false = keep.getD i false := by
  rw [Redundancy.applyVerdict]
  split
  · rfl
  · rw [List.getD_eq_getElem?_getD, List.getD_eq_getElem?_getD,
      List.getElem?_set_ne (fun hh => h hh.symm)]

theorem getD_applyVerdict_mono (keep : List Bool) (j : Nat) (v : Bool)
    (i : Nat) (h : (Redundancy.applyVerdict keep j v).getD i false = true) :
    keep.getD i false = true := by
  rw [Redundancy.applyVerdict] at h
  split at h
  · exact h
  · rcases getD_set_false keep j i with heq | heq
    · rw [← heq]; exact h
    · rw [heq] at h; exact Bool.noConfusion h

theorem stepPair_length (seqs : List (List Char))
    (quals : List Redundancy.QualityVector) (c : ℚ) (dk : Bool)
    (keep : List Bool) (p : Nat × Nat) :
    (Redundancy.stepPair seqs quals c dk keep p).length = keep.length := by
  rw [Redundancy.stepPair]
  split
  · rfl
  · rw [applyVerdict_length, applyVerdict_length]

theorem stepPair_mono (seqs : List (List Char))
    (quals : List Redundancy.QualityVector) (c : ℚ) (dk : Bool)
    (keep : List Bool) (p : Nat × Nat) (i : Nat)
    (h : (Redundancy.stepPair seqs quals c dk keep p).getD i false = true) :
    keep.getD i false = true := by
  rw [Redundancy.stepPair] at h
  split at h
  · exact h
  · exact getD_applyVerdict_mono _ _ _ _
      (getD_applyVerdict_mono _ _ _ _ h)

theorem thread_function_length (seqs : List (List Char))
    (quals : List Redundancy.QualityVector) (c : ℚ) (dk : Bool)
    (pairs : List (Nat × Nat)) :
    ∀ keep : List Bool,
      (Redundancy._redundancy_thread_function seqs quals c dk keep
        pairs).length = keep.length := by
  induction pairs with
  | nil => intro keep; rfl
  | cons p ps ih =>
    intro keep
    simp only [Redundancy._redundancy_thread_function, List.foldl_cons]
      at ih ⊢
    rw [ih, stepPair_length]

theorem thread_function_mono (seqs : List (List Char))
    (quals : List Redundancy.QualityVector) (c : ℚ) (dk : Bool)
    (pairs : List (Nat × Nat)) (i : Nat) :
    ∀ keep : List Bool,
      (Redundancy._redundancy_thread_function seqs quals c dk keep
        pairs).getD i false = true → keep.getD i false = true := by
  induction pairs with
  | nil => intro keep h; exact h
  | cons p ps ih =>
    intro keep h
    simp only [Redundancy._redundancy_thread_function, List.foldl_cons]
      at ih h
    exact stepPair_mono seqs quals c dk keep p i (ih _ h)

theorem thread_function_no_change (seqs : List (List Char))
    (quals : List Redundancy.QualityVector) (c : ℚ) (dk : Bool)
    (pairs : List (Nat × Nat))
    (h : ∀ p ∈ pairs,
      Redundancy._compare_seqs (seqs.getD p.1 []) (seqs.getD p.2 [])
        (quals.getD p.1 Redundancy.defaultQual)
        (quals.getD p.2 Redundancy.defaultQual) c dk = (true, true)) :
    ∀ keep : List Bool,
      Redundancy._redundancy_thread_function seqs quals c dk keep pairs =
        keep := by
  induction pairs with
  | nil => intro keep; rfl
  | cons p ps ih =>
    intro keep
    simp only [Redundancy._redundancy_thread_function, List.foldl_cons]
      at ih ⊢
    have hstep : Redundancy.stepPair seqs quals c dk keep p = keep := by
      rw [Redundancy.stepPair]
      split
      · rfl
      · rw [h p (List.mem_cons_self p ps), Redundancy.applyVerdict,
          if_pos rfl, Redundancy.applyVerdict, if_pos rfl]
    rw [hstep]
    exact ih (fun q hq => h q (List.mem_cons_of_mem p hq)) keep

theorem thread_function_protects (seqs : List (List Char))
    (quals : List Redundancy.QualityVector) (c : ℚ)
    (pairs : List (Nat × Nat)) (i : Nat)
    (hq : (quals.getD i Redundancy.defaultQual).key_species_rank = 0) :
    ∀ keep : List Bool, keep.getD i false = true →
      (Redundancy._redundancy_thread_function seqs quals c false keep
        pairs).getD i false = true := by
  induction pairs with
  | nil => intro keep hk; exact hk
  | cons p ps ih =>
    intro keep hk
    simp only [Redundancy._redundancy_thread_function, List.foldl_cons]
      at ih ⊢
    refine ih _ ?_
    rw [Redundancy.stepPair]
    split
    · exact hk
    · have houter : ∀ keep' : List Bool, keep'.getD i false = true →
          (Redundancy.applyVerdict keep' p.2
            (Redundancy._compare_seqs (seqs.getD p.1 []) (seqs.getD p.2 [])
              (quals.getD p.1 Redundancy.defaultQual)
              (quals.getD p.2 Redundancy.defaultQual) c false).2).getD i
            false = true := by
        intro keep' hk'
        by_cases hpi : i = p.2
        · subst hpi
          rw [compare_seqs_snd_of_key _ _ _ _ _ hq]
          exact hk'
        · rw [getD_applyVerdict_other _ _ _ _ hpi]
          exact hk'
      refine houter _ ?_
      by_cases hpi : i = p.1
      · subst hpi
        rw [compare_seqs_fst_of_key _ _ _ _ _ hq]
        exact hk
      · rw [getD_applyVerdict_other _ _ _ _ hpi]
        exact hk

/-! ## Orchestrator plumbing -/

theorem mapExcept_ok_spec (f : α → Except String β) (dA : α) (dB : β) :
    ∀ (l : List α) (out : List β), Redundancy.mapExcept f l = .ok out →
      out.length = l.length ∧
      ∀ i, i < l.length → f (l.getD i dA) = .ok (out.getD i dB) := by
  intro l
  induction l with
  | nil =>
    intro out h
    rw [Redundancy.mapExcept] at h
    injection h with h
    subst h
    simp
  | cons x xs ih =>
    intro out h
    rw [Redundancy.mapExcept] at h
    split at h
    · exact Except.noConfusion h
    · next y hfx =>
      split at h
      · exact Except.noConfusion h
      · next ys hrec =>
        injection h with h
        subst h
        obtain ⟨hlen, hget⟩ := ih ys hrec
        refine ⟨by simp [hlen], ?_⟩
        intro i hi
        cases i with
        | zero => simpa using hfx
        | succ i =>
          simp only [List.getD_cons_succ]
          exact hget i (by simpa using hi)

theorem get_quality_scores_ok_elim (row : Redundancy.SequenceRecord)
    (ks : List String) (q : Redundancy.QualityVector)
    (h : Redundancy._get_quality_scores row ks = .ok q) :
    q = ⟨if row.always_keep = some true then 0 else 1,
      if row.species ∈ ks then 0 else 1,
      row.metrics ++ [(1 : ℚ) / (row.sequence.length : ℚ)]⟩ ∧
    row.sequence.length ≠ 0 := by
  rw [Redundancy._get_quality_scores] at h
  split at h
  · exact Except.noConfusion h
  · next hne =>
    injection h with h
    exact ⟨h.symm, hne⟩

theorem remove_redundancy_ok_elim (df : List Redundancy.SequenceRecord)
    (c : ℚ) (ks : List String) (dk : Bool) (nt : Int) (cores : Nat)
    (silent : Bool) (out : List Redundancy.SequenceRecord)
    (h : Redundancy.remove_redundancy df c ks dk nt cores silent = .ok out) :
    ∃ t quals,
      Redundancy._check_args c nt cores = .ok t ∧
      Redundancy.mapExcept
        (fun row => Redundancy._get_quality_scores row ks) df = .ok quals ∧
      out = df.zipWith (fun row k => ⟨row.sequence, row.species,
          row.always_keep, k, row.metrics⟩)
        (Redundancy._redundancy_thread_function (df.map (fun r => r.sequence))
          quals c dk (df.map (fun r => r.keep))
          ((Redundancy._construct_args df.length t).1.flatMap
            Redundancy.blockPairs)) := by
  simp only [Redundancy.remove_redundancy] at h
  split at h
  · exact Except.noConfusion h
  · next t ht =>
    split at h
    · exact Except.noConfusion h
    · next quals hq =>
      injection h with h
      exact ⟨t, quals, ht, hq, h.symm⟩

theorem zipWith_writeback_self (df : List Redundancy.SequenceRecord) :
    df.zipWith (fun row k => (⟨row.sequence, row.species, row.always_keep, k,
      row.metrics⟩ : Redundancy.SequenceRecord)) (df.map (fun r => r.keep)) =
      df := by
  induction df with
  | nil => rfl
  | cons r rs ih =>
    simp only [List.map_cons, List.zipWith_cons_cons, ih]

theorem getD_zipWith_writeback (df : List Redundancy.SequenceRecord)
    (kl : List Bool) (i : Nat) (hi : i < df.length)
    (hlen : kl.length = df.length) :
    ((df.zipWith (fun row k => (⟨row.sequence, row.species, row.always_keep,
        k, row.metrics⟩ : Redundancy.SequenceRecord)) kl).getD i
      Redundancy.defaultRecord).keep = kl.getD i false := by
  have hl : i < (df.zipWith (fun row k =>
      (⟨row.sequence, row.species, row.always_keep, k, row.metrics⟩ :
        Redundancy.SequenceRecord)) kl).length := by
    simp [List.length_zipWith, hlen, hi]
  rw [List.getD_eq_getElem _ _ hl, List.getElem_zipWith,
    List.getD_eq_getElem _ _ (by omega)]

theorem mem_blockPairs_bounds (a b n : Nat) (p : Nat × Nat)
    (hp : p ∈ Redundancy.blockPairs ⟨(a, b), (0, n)⟩) :
    p.1 < p.2 ∧ p.2 < n := by
  rw [blockPairs_row_block] at hp
  simp only [List.mem_flatMap, List.mem_filterMap, List.mem_range] at hp
  obtain ⟨i, -, j, hj, hij⟩ := hp
  by_cases h : i < j
  · rw [if_pos h] at hij
    obtain rfl := Option.some.inj hij
    exact ⟨h, hj⟩
  · rw [if_neg h] at hij
    exact Option.noConfusion hij

theorem mem_construct_args_bounds (n t : Nat) (p : Nat × Nat)
    (hp : p ∈ (Redundancy._construct_args n t).1.flatMap
      Redundancy.blockPairs) :
    p.1 < p.2 ∧ p.2 < n := by
  rw [Redundancy._construct_args] at hp
  split at hp
  · simp only [List.flatMap_cons, List.flatMap_nil, List.append_nil] at hp
    exact mem_blockPairs_bounds 0 n n p hp
  · rw [List.flatMap_map] at hp
    simp only [List.mem_flatMap, List.mem_range] at hp
    obtain ⟨k, -, hpk⟩ := hp
    exact mem_blockPairs_bounds _ _ n p hpk

theorem remove_redundancy_two (r0 r1 : Redundancy.SequenceRecord) (c : ℚ)
    (ks : List String) (dk : Bool) (q0 q1 : Redundancy.QualityVector)
    (v : Bool × Bool)
    (hk0 : r0.keep = true) (hk1 : r1.keep = true)
    (h0 : Redundancy._get_quality_scores r0 ks = .ok q0)
    (h1 : Redundancy._get_quality_scores r1 ks = .ok q1)
    (hc : ¬ (c < 0 ∨ 1 < c))
    (hcomp : Redundancy._compare_seqs r0.sequence r1.sequence q0 q1 c dk = v) :
    Redundancy.remove_redundancy [r0, r1] c ks dk 1 1 false =
      .ok [⟨r0.sequence, r0.species, r0.always_keep, v.1, r0.metrics⟩,
        ⟨r1.sequence, r1.species, r1.always_keep, v.2, r1.metrics⟩] := by
  have hchk : Redundancy._check_args c 1 1 = .ok 1 := by
    rw [Redundancy._check_args, if_neg hc, Redundancy.resolve_num_threads,
      if_neg (by decide), if_neg (by decide), if_neg (by decide)]
    rfl
  have hpairs : ((Redundancy._construct_args 2 1).1.flatMap
      Redundancy.blockPairs) = [(0, 1)] := by decide
  have hfold : Redundancy._redundancy_thread_function
      [r0.sequence, r1.sequence] [q0, q1] c dk [true, true] [(0, 1)] =
      [v.1, v.2] := by
    rw [Redundancy._redundancy_thread_function, List.foldl_cons,
      List.foldl_nil, Redundancy.stepPair,
      if_neg (by simp)]
    simp only [List.getD_cons_zero, List.getD_cons_succ]
    rw [hcomp]
    obtain ⟨a, b⟩ := v
    cases a <;> cases b <;>
      simp [Redundancy.applyVerdict, List.set]
  simp only [Redundancy.remove_redundancy, hchk]
  rw [Redundancy.mapExcept]
  rw [h0]
  rw [Redundancy.mapExcept]
  rw [h1]
  rw [Redundancy.mapExcept]
  simp only [List.map_cons, List.map_nil, List.length_cons,
    List.length_nil]
  rw [hk0, hk1]
  rw [show ((0 : Nat) + 1 + 1 = 2) from rfl, hpairs, hfold]
  simp [List.zipWith]

/-- Claim C3: for every redundant pair with `discard_key` false where at
least one side has `key_species_rank == 0` (and always-keep does not decide
the pair), `_compare_seqs` returns `(true, true)`; consequently, when
`remove_redundancy` is run with a non-empty key-species set and
`discard_key = false`, no record belonging to a key species is ever dropped,
at any cutoff. -/
theorem key_species_protection (A_seq B_seq : List Char)
    (qA qB : Redundancy.QualityVector) (c c' : ℚ)
    (df out : List Redundancy.SequenceRecord) (ks : List String) (nt : Int)
    (cores : Nat) (silent : Bool) (i : Nat) :
    (¬ Redundancy.fractional_identity A_seq B_seq < c →
      qA.always_keep_rank ≠ 0 → qB.always_keep_rank ≠ 0 →
      (qA.key_species_rank = 0 ∨ qB.key_species_rank = 0) →
      Redundancy._compare_seqs A_seq B_seq qA qB c false = (true, true)) ∧
    (Redundancy.remove_redundancy df c' ks false nt cores silent = .ok out →
      i < df.length →
      (df.getD i Redundancy.defaultRecord).species ∈ ks →
      (df.getD i Redundancy.defaultRecord).keep = true →
      (out.getD i Redundancy.defaultRecord).keep = true) := by
  constructor
  · exact fun hred ha hb hks =>
      compare_seqs_key_protects A_seq B_seq qA qB c hred ha hb hks
  · intro h hi hsp hkeep
    obtain ⟨t, quals, -, hmap, hout⟩ :=
      remove_redundancy_ok_elim df c' ks false nt cores silent out h
    obtain ⟨hqlen, hqget⟩ := mapExcept_ok_spec _ Redundancy.defaultRecord
      Redundancy.defaultQual df quals hmap
    obtain ⟨hqeq, -⟩ := get_quality_scores_ok_elim _ _ _ (hqget i hi)
    have hks0 : (quals.getD i Redundancy.defaultQual).key_species_rank = 0 := by
      rw [hqeq, if_pos hsp]
    have hklen : (Redundancy._redundancy_thread_function
        (df.map (fun r => r.sequence)) quals c' false
        (df.map (fun r => r.keep))
        ((Redundancy._construct_args df.length t).1.flatMap
          Redundancy.blockPairs)).length = df.length := by
      rw [thread_function_length, List.length_map]
    subst hout
    rw [getD_zipWith_writeback df _ i hi hklen]
    refine thread_function_protects _ _ _ _ i hks0 _ ?_
    rw [getD_map_of_lt (fun r => r.keep) df i hi Redundancy.defaultRecord]
    exact hkeep

/-- Claim C4: always-keep protection at the comparator (both sides, and each
one-sided case, yield `(true, true)` on a redundant pair), and at the run
level: if every record is always-keep, the output table is unchanged, so the
surviving count equals the input count for any cutoff. -/
theorem always_keep_protection (A_seq B_seq : List Char)
    (qA qB : Redundancy.QualityVector) (c c' : ℚ)
    (df out : List Redundancy.SequenceRecord) (ks : List String)
    (dk dk' : Bool) (nt : Int) (cores : Nat) (silent : Bool) :
    (¬ Redundancy.fractional_identity A_seq B_seq < c →
      qA.always_keep_rank = 0 → qB.always_keep_rank = 0 →
      Redundancy._compare_seqs A_seq B_seq qA qB c dk = (true, true)) ∧
    (¬ Redundancy.fractional_identity A_seq B_seq < c →
      qA.always_keep_rank = 0 → qB.always_keep_rank ≠ 0 →
      Redundancy._compare_seqs A_seq B_seq qA qB c dk = (true, true)) ∧
    (¬ Redundancy.fractional_identity A_seq B_seq < c →
      qA.always_keep_rank ≠ 0 → qB.always_keep_rank = 0 →
      Redundancy._compare_seqs A_seq B_seq qA qB c dk = (true, true)) ∧
    ((∀ r ∈ df, r.always_keep = some true) →
      Redundancy.remove_redundancy df c' ks dk' nt cores silent = .ok out →
      out = df ∧ Redundancy.keepCount out = Redundancy.keepCount df) := by
  refine ⟨fun _ h1 _ =>
      compare_seqs_always_keep_protects A_seq B_seq qA qB c dk (Or.inl h1),
    fun _ h1 _ =>
      compare_seqs_always_keep_protects A_seq B_seq qA qB c dk (Or.inl h1),
    fun _ _ h2 =>
      compare_seqs_always_keep_protects A_seq B_seq qA qB c dk (Or.inr h2),
    ?_⟩
  intro hall h
  obtain ⟨t, quals, -, hmap, hout⟩ :=
    remove_redundancy_ok_elim df c' ks dk' nt cores silent out h
  obtain ⟨hqlen, hqget⟩ := mapExcept_ok_spec _ Redundancy.defaultRecord
    Redundancy.defaultQual df quals hmap
  have hcmp : ∀ p ∈ (Redundancy._construct_args df.length t).1.flatMap
      Redundancy.blockPairs,
      Redundancy._compare_seqs
        ((df.map (fun r => r.sequence)).getD p.1 [])
        ((df.map (fun r => r.sequence)).getD p.2 [])
        (quals.getD p.1 Redundancy.defaultQual)
        (quals.getD p.2 Redundancy.defaultQual) c' dk' = (true, true) := by
    intro p hp
    obtain ⟨hij, hjn⟩ := mem_construct_args_bounds df.length t p hp
    have hi : p.1 < df.length := lt_trans hij hjn
    obtain ⟨hq1eq, -⟩ := get_quality_scores_ok_elim _ _ _ (hqget p.1 hi)
    have hmem : df.getD p.1 Redundancy.defaultRecord ∈ df := by
      rw [List.getD_eq_getElem _ _ hi]
      exact List.getElem_mem hi
    have hak : (quals.getD p.1 Redundancy.defaultQual).always_keep_rank
        = 0 := by
      rw [hq1eq, if_pos (hall _ hmem)]
    exact compare_seqs_always_keep_protects _ _ _ _ _ _ (Or.inl hak)
  rw [thread_function_no_change _ _ _ _ _ hcmp, zipWith_writeback_self]
    at hout
  exact ⟨hout, by rw [hout]⟩

/-- Claim C5: within a single `remove_redundancy` run, every entry of the
shared keep state may only transition from true to false and never from
false to true; a record whose input keep flag is false is never re-flagged
true in the output (equivalently: an output entry that is true was already
true on input). -/
theorem keep_state_monotonicity (seqs : List (List Char))
    (quals : List Redundancy.QualityVector) (c c' : ℚ) (dk dk' : Bool)
    (keep : List Bool) (pairs : List (Nat × Nat)) (i j : Nat)
    (df out : List Redundancy.SequenceRecord) (ks : List String) (nt : Int)
    (cores : Nat) (silent : Bool) :
    ((Redundancy._redundancy_thread_function seqs quals c dk keep
        pairs).getD i false = true → keep.getD i false = true) ∧
    (Redundancy.remove_redundancy df c' ks dk' nt cores silent = .ok out →
      j < df.length → (out.getD j Redundancy.defaultRecord).keep = true →
      (df.getD j Redundancy.defaultRecord).keep = true) := by
  constructor
  · exact thread_function_mono seqs quals c dk pairs i keep
  · intro h hj hout'
    obtain ⟨t, quals', -, hmap, hout⟩ :=
      remove_redundancy_ok_elim df c' ks dk' nt cores silent out h
    have hklen : (Redundancy._redundancy_thread_function
        (df.map (fun r => r.sequence)) quals' c' dk'
        (df.map (fun r => r.keep))
        ((Redundancy._construct_args df.length t).1.flatMap
          Redundancy.blockPairs)).length = df.length := by
      rw [thread_function_length, List.length_map]
    subst hout
    rw [getD_zipWith_writeback df _ j hj hklen] at hout'
    have hk0 := thread_function_mono _ _ _ _ _ j _ hout'
    rw [getD_map_of_lt (fun r => r.keep) df j hj Redundancy.defaultRecord]
      at hk0
    exact hk0

/-! ## Concrete runs used by witnesses and the C8 counterexample -/

theorem identical_pair_run :
    Redundancy.remove_redundancy
      [⟨['A','A'], "s1", none, true, []⟩, ⟨['A','A'], "s2", none, true, []⟩]
      1 [] false 1 1 false =
      .ok [⟨['A','A'], "s1", none, true, []⟩,
        ⟨['A','A'], "s2", none, false, []⟩] :=
  remove_redundancy_two ⟨['A','A'], "s1", none, true, []⟩
    ⟨['A','A'], "s2", none, true, []⟩ 1 [] false
    ⟨1, 1, [1/2]⟩ ⟨1, 1, [1/2]⟩ (true, false) rfl rfl
    (by norm_num [Redundancy._get_quality_scores]; decide)
    (by norm_num [Redundancy._get_quality_scores]; decide)
    (by norm_num)
    (by
      rw [compare_seqs_reaches_tiebreak _ _ _ _ _ _
        (by norm_num [Redundancy.fractional_identity, Redundancy.match_count])
        (by norm_num) (by norm_num) (Or.inr ⟨by norm_num, by norm_num⟩)]
      norm_num [Redundancy.tiebreak])

theorem key_pair_run :
    Redundancy.remove_redundancy
      [⟨['A'], "a", none, true, []⟩, ⟨['A'], "b", none, true, []⟩]
      (1/2) ["a"] false 1 1 false =
      .ok [⟨['A'], "a", none, true, []⟩, ⟨['A'], "b", none, true, []⟩] :=
  remove_redundancy_two ⟨['A'], "a", none, true, []⟩
    ⟨['A'], "b", none, true, []⟩ (1/2) ["a"] false
    ⟨1, 0, [1]⟩ ⟨1, 1, [1]⟩ (true, true) rfl rfl
    (by norm_num [Redundancy._get_quality_scores]; decide)
    (by norm_num [Redundancy._get_quality_scores]; decide)
    (by norm_num)
    (compare_seqs_key_protects _ _ _ _ _
      (by norm_num [Redundancy.fractional_identity, Redundancy.match_count])
      (by norm_num) (by norm_num) (Or.inl rfl))

theorem always_pair_run :
    Redundancy.remove_redundancy
      [⟨['A'], "a", some true, true, []⟩, ⟨['A'], "b", some true, true, []⟩]
      (1/2) [] false 1 1 false =
      .ok [⟨['A'], "a", some true, true, []⟩,
        ⟨['A'], "b", some true, true, []⟩] :=
  remove_redundancy_two ⟨['A'], "a", some true, true, []⟩
    ⟨['A'], "b", some true, true, []⟩ (1/2) [] false
    ⟨0, 1, [1]⟩ ⟨0, 1, [1]⟩ (true, true) rfl rfl
    (by norm_num [Redundancy._get_quality_scores])
    (by norm_num [Redundancy._get_quality_scores])
    (by norm_num)
    (compare_seqs_always_keep_protects _ _ _ _ _ _ (Or.inl rfl))

/-- Concrete instance of `key_species_protection`: a protected pair at
cutoff `1/2` keeps the key-species record, and the comparator branch fires
at a concrete protected quality vector. -/
theorem key_species_protection_witness :
    Redundancy._compare_seqs [] [] ⟨1, 0, []⟩ ⟨1, 1, []⟩ 0 false =
      (true, true) ∧
    (([⟨['A'], "a", none, true, []⟩, ⟨['A'], "b", none, true, []⟩] :
        List Redundancy.SequenceRecord).getD 0
      Redundancy.defaultRecord).keep = true :=
  ⟨(key_species_protection [] [] ⟨1, 0, []⟩ ⟨1, 1, []⟩ 0 (1/2)
      [⟨['A'], "a", none, true, []⟩, ⟨['A'], "b", none, true, []⟩]
      [⟨['A'], "a", none, true, []⟩, ⟨['A'], "b", none, true, []⟩]
      ["a"] 1 1 false 0).1
      (by
        simp only [Redundancy.fractional_identity]
        exact not_lt.2 (by positivity))
      (by norm_num) (by norm_num) (Or.inl rfl),
   (key_species_protection [] [] ⟨1, 0, []⟩ ⟨1, 1, []⟩ 0 (1/2)
      [⟨['A'], "a", none, true, []⟩, ⟨['A'], "b", none, true, []⟩]
      [⟨['A'], "a", none, true, []⟩, ⟨['A'], "b", none, true, []⟩]
      ["a"] 1 1 false 0).2 key_pair_run (by decide) (by decide) rfl⟩

/-- Concrete instance of `always_keep_protection`: a fully always-keep
two-record table at cutoff `1/2` comes back unchanged, and the comparator
branch fires at concrete protected vectors. -/
theorem always_keep_protection_witness :
    Redundancy._compare_seqs [] [] ⟨0, 1, []⟩ ⟨0, 1, []⟩ 0 false =
      (true, true) ∧
    (([⟨['A'], "a", some true, true, []⟩,
        ⟨['A'], "b", some true, true, []⟩] :
        List Redundancy.SequenceRecord) =
      [⟨['A'], "a", some true, true, []⟩,
        ⟨['A'], "b", some true, true, []⟩] ∧
     Redundancy.keepCount
        [⟨['A'], "a", some true, true, []⟩,
          ⟨['A'], "b", some true, true, []⟩] =
      Redundancy.keepCount
        [⟨['A'], "a", some true, true, []⟩,
          ⟨['A'], "b", some true, true, []⟩]) :=
  ⟨(always_keep_protection [] [] ⟨0, 1, []⟩ ⟨0, 1, []⟩ 0 (1/2)
      [⟨['A'], "a", some true, true, []⟩, ⟨['A'], "b", some true, true, []⟩]
      [⟨['A'], "a", some true, true, []⟩, ⟨['A'], "b", some true, true, []⟩]
      [] false false 1 1 false).1
      (by
        simp only [Redundancy.fractional_identity]
        exact not_lt.2 (by positivity))
      rfl rfl,
   (always_keep_protection [] [] ⟨0, 1, []⟩ ⟨0, 1, []⟩ 0 (1/2)
      [⟨['A'], "a", some true, true, []⟩, ⟨['A'], "b", some true, true, []⟩]
      [⟨['A'], "a", some true, true, []⟩, ⟨['A'], "b", some true, true, []⟩]
      [] false false 1 1 false).2.2.2 (by decide) always_pair_run⟩

/-- Concrete instance of `keep_state_monotonicity`: an empty pair list leaves
the keep state alone, and the record dropped by `identical_pair_run` was
already true on input while the surviving entry traces back to a true
input. -/
theorem keep_state_monotonicity_witness :
    ([true] : List Bool).getD 0 false = true ∧
    (([⟨['A','A'], "s1", none, true, []⟩,
        ⟨['A','A'], "s2", none, true, []⟩] :
        List Redundancy.SequenceRecord).getD 0
      Redundancy.defaultRecord).keep = true :=
  ⟨(keep_state_monotonicity [] [] 0 1 false false [true] [] 0 0
      [⟨['A','A'], "s1", none, true, []⟩, ⟨['A','A'], "s2", none, true, []⟩]
      [⟨['A','A'], "s1", none, true, []⟩, ⟨['A','A'], "s2", none, false, []⟩]
      [] 1 1 false).1 rfl,
   (keep_state_monotonicity [] [] 0 1 false false [true] [] 0 0
      [⟨['A','A'], "s1", none, true, []⟩, ⟨['A','A'], "s2", none, true, []⟩]
      [⟨['A','A'], "s1", none, true, []⟩, ⟨['A','A'], "s2", none, false, []⟩]
      [] 1 1 false).2 identical_pair_run (by decide) rfl⟩

/-- Claim C8 (amended): for every pair whose fractional identity is strictly
below the cutoff, `_compare_seqs` returns `(true, true)`; consequently, when
the cutoff is strictly greater than every pairwise identity in the dataset,
`remove_redundancy` preserves the surviving keep count.  (The original
claim's "greater than or equal" fails at equality: a pair whose identity
equals the cutoff is redundant.) -/
theorem below_cutoff_never_condemns (A_seq B_seq : List Char)
    (qA qB : Redundancy.QualityVector) (c : ℚ) (dk dk' : Bool)
    (df out : List Redundancy.SequenceRecord) (ks : List String) (nt : Int)
    (cores : Nat) (silent : Bool) :
    (Redundancy.fractional_identity A_seq B_seq < c →
      Redundancy._compare_seqs A_seq B_seq qA qB c dk = (true, true)) ∧
    ((∀ i j : Nat, i < j → j < df.length →
        Redundancy.fractional_identity
          ((df.getD i Redundancy.defaultRecord).sequence)
          ((df.getD j Redundancy.defaultRecord).sequence) < c) →
      Redundancy.remove_redundancy df c ks dk' nt cores silent = .ok out →
      Redundancy.keepCount out = Redundancy.keepCount df) := by
  constructor
  · exact fun h => compare_seqs_below_cutoff A_seq B_seq qA qB c dk h
  · intro hmax h
    obtain ⟨t, quals, -, hmap, hout⟩ :=
      remove_redundancy_ok_elim df c ks dk' nt cores silent out h
    have hcmp : ∀ p ∈ (Redundancy._construct_args df.length t).1.flatMap
        Redundancy.blockPairs,
        Redundancy._compare_seqs
          ((df.map (fun r => r.sequence)).getD p.1 [])
          ((df.map (fun r => r.sequence)).getD p.2 [])
          (quals.getD p.1 Redundancy.defaultQual)
          (quals.getD p.2 Redundancy.defaultQual) c dk' = (true, true) := by
      intro p hp
      obtain ⟨hij, hjn⟩ := mem_construct_args_bounds df.length t p hp
      have hi : p.1 < df.length := lt_trans hij hjn
      refine compare_seqs_below_cutoff _ _ _ _ _ _ ?_
      rw [getD_map_of_lt (fun r => r.sequence) df p.1 hi
          Redundancy.defaultRecord,
        getD_map_of_lt (fun r => r.sequence) df p.2 hjn
          Redundancy.defaultRecord]
      exact hmax p.1 p.2 hij hjn
    rw [thread_function_no_change _ _ _ _ _ hcmp, zipWith_writeback_self]
      at hout
    rw [hout]

/-- Claim C8 counterexample: with two identical unprotected records the
maximum pairwise identity is `1`; at `cutoff = 1` — a cutoff greater than or
equal to the maximum pairwise identity — the run still drops the second
record, so the surviving keep count falls from 2 to 1. -/
theorem cutoff_at_max_identity_drops :
    Redundancy.fractional_identity ['A','A'] ['A','A'] = 1 ∧
    Redundancy.remove_redundancy
      [⟨['A','A'], "s1", none, true, []⟩, ⟨['A','A'], "s2", none, true, []⟩]
      1 [] false 1 1 false =
      .ok [⟨['A','A'], "s1", none, true, []⟩,
        ⟨['A','A'], "s2", none, false, []⟩] ∧
    Redundancy.keepCount [⟨['A','A'], "s1", none, true, []⟩,
      ⟨['A','A'], "s2", none, false, []⟩] = 1 ∧
    Redundancy.keepCount [⟨['A','A'], "s1", none, true, []⟩,
      ⟨['A','A'], "s2", none, true, []⟩] = 2 :=
  ⟨by norm_num [Redundancy.fractional_identity, Redundancy.match_count],
    identical_pair_run, by decide, by decide⟩

/-- Concrete instance of `below_cutoff_never_condemns`: two entirely
different one-letter sequences at cutoff `1/2` — identity 0 — keep both
records, and the keep count is preserved. -/
theorem below_cutoff_never_condemns_witness :
    Redundancy._compare_seqs ['A'] ['B'] ⟨1, 1, [1]⟩ ⟨1, 1, [1]⟩ (1/2)
      false = (true, true) ∧
    Redundancy.keepCount
      [⟨['A'], "a", none, true, []⟩, ⟨['B'], "b", none, true, []⟩] =
    Redundancy.keepCount
      [⟨['A'], "a", none, true, []⟩, ⟨['B'], "b", none, true, []⟩] :=
  ⟨(below_cutoff_never_condemns ['A'] ['B'] ⟨1, 1, [1]⟩ ⟨1, 1, [1]⟩ (1/2)
      false false
      [⟨['A'], "a", none, true, []⟩, ⟨['B'], "b", none, true, []⟩]
      [⟨['A'], "a", none, true, []⟩, ⟨['B'], "b", none, true, []⟩]
      [] 1 1 false).1
      (by norm_num [Redundancy.fractional_identity, Redundancy.match_count,
        eq_false (by decide : ¬ ('A' = 'B'))]),
   (below_cutoff_never_condemns ['A'] ['B'] ⟨1, 1, [1]⟩ ⟨1, 1, [1]⟩ (1/2)
      false false
      [⟨['A'], "a", none, true, []⟩, ⟨['B'], "b", none, true, []⟩]
      [⟨['A'], "a", none, true, []⟩, ⟨['B'], "b", none, true, []⟩]
      [] 1 1 false).2
      (by
        intro i j hij hjn
        have hj2 : j < 2 := by simpa using hjn
        obtain ⟨rfl, rfl⟩ : i = 0 ∧ j = 1 := by omega
        norm_num [Redundancy.fractional_identity, Redundancy.match_count,
          eq_false (by decide : ¬ ('A' = 'B'))])
      (remove_redundancy_two ⟨['A'], "a", none, true, []⟩
        ⟨['B'], "b", none, true, []⟩ (1/2) [] false
        ⟨1, 1, [1]⟩ ⟨1, 1, [1]⟩ (true, true) rfl rfl
        (by norm_num [Redundancy._get_quality_scores]; decide)
        (by norm_num [Redundancy._get_quality_scores]; decide)
        (by norm_num)
        (compare_seqs_below_cutoff _ _ _ _ _ _
          (by norm_num [Redundancy.fractional_identity,
            Redundancy.match_count,
            eq_false (by decide : ¬ ('A' = 'B'))])))⟩

/-! ## The truncated-sequence scenario -/

theorem match_count_take (s : List Char) :
    ∀ m : Nat, Redundancy.match_count (s.take m) s = min m s.length := by
  induction s with
  | nil =>
    intro m
    simp [Redundancy.match_count]
  | cons a as ih =>
    intro m
    cases m with
    | zero => simp [Redundancy.match_count]
    | succ m =>
      rw [List.take_succ_cons, Redundancy.match_count, if_pos rfl, ih m]
      simp only [List.length_cons]
      omega

theorem tiebreak_append_common (xs l1 l2 : List ℚ) :
    Redundancy.tiebreak (xs ++ l1) (xs ++ l2) =
      Redundancy.tiebreak l1 l2 := by
  induction xs with
  | nil => rfl
  | cons a as ih =>
    rw [List.cons_append, List.cons_append, Redundancy.tiebreak,
      if_neg (lt_irrefl a), if_neg (lt_irrefl a), ih]

/-- Claim C9: for a pair of records where one sequence is truncated to under
half the length of its otherwise-identical partner (here: a strict prefix),
running `remove_redundancy` with `cutoff = 0.50` drops the truncated
sequence while the full-length partner survives — the positional identity
over the compared overlap is `1`, and the appended inverse-length metric
breaks the tie against the shorter record. -/
theorem truncated_sequence_dropped (s : List Char) (m : Nat) (ms : List ℚ)
    (sp1 sp2 : String) (hm : 1 ≤ m) (hlen : 2 * m < s.length) :
    Redundancy.remove_redundancy
      [⟨s.take m, sp1, none, true, ms⟩, ⟨s, sp2, none, true, ms⟩]
      (1/2) [] false 1 1 false =
      .ok [⟨s.take m, sp1, none, false, ms⟩, ⟨s, sp2, none, true, ms⟩] := by
  have hltake : (s.take m).length = m := by
    simp only [List.length_take]
    omega
  have hmin : min m s.length = m := by omega
  have hcn : ¬ ((none : Option Bool) = some true) := by simp
  have hc0 : ¬ ((s.take m).length = 0) := by rw [hltake]; omega
  have hc1 : ¬ (s.length = 0) := by omega
  have hs0 : Redundancy._get_quality_scores ⟨s.take m, sp1, none, true, ms⟩
      [] = .ok ⟨1, 1, ms ++ [(1 : ℚ) / (m : ℚ)]⟩ := by
    rw [Redundancy._get_quality_scores, if_neg hc0, hltake, if_neg hcn,
      if_neg (List.not_mem_nil sp1)]
  have hs1 : Redundancy._get_quality_scores ⟨s, sp2, none, true, ms⟩ [] =
      .ok ⟨1, 1, ms ++ [(1 : ℚ) / (s.length : ℚ)]⟩ := by
    rw [Redundancy._get_quality_scores, if_neg hc1, if_neg hcn,
      if_neg (List.not_mem_nil sp2)]
  have hid : Redundancy.fractional_identity (s.take m) s = 1 := by
    rw [Redundancy.fractional_identity, match_count_take, hltake, hmin]
    exact div_self (Nat.cast_ne_zero.mpr (by omega))
  have hlt : (1 : ℚ) / (s.length : ℚ) < 1 / (m : ℚ) :=
    one_div_lt_one_div_of_lt (by exact_mod_cast hm)
      (by exact_mod_cast (by omega : m < s.length))
  have htb : Redundancy.tiebreak (ms ++ [(1 : ℚ) / (m : ℚ)])
      (ms ++ [(1 : ℚ) / (s.length : ℚ)]) = (false, true) := by
    rw [tiebreak_append_common, Redundancy.tiebreak,
      if_neg (not_lt.2 hlt.le), if_pos hlt]
  have hcomp : Redundancy._compare_seqs (s.take m) s
      ⟨1, 1, ms ++ [(1 : ℚ) / (m : ℚ)]⟩
      ⟨1, 1, ms ++ [(1 : ℚ) / (s.length : ℚ)]⟩ (1/2) false =
      (false, true) := by
    rw [compare_seqs_reaches_tiebreak _ _ _ _ _ _
      (by rw [hid]; norm_num) (by norm_num) (by norm_num)
      (Or.inr ⟨by norm_num, by norm_num⟩)]
    exact htb
  exact remove_redundancy_two ⟨s.take m, sp1, none, true, ms⟩
    ⟨s, sp2, none, true, ms⟩ (1/2) [] false
    ⟨1, 1, ms ++ [(1 : ℚ) / (m : ℚ)]⟩
    ⟨1, 1, ms ++ [(1 : ℚ) / (s.length : ℚ)]⟩ (false, true) rfl rfl hs0 hs1
    (by norm_num) hcomp

/-- Concrete instance of `truncated_sequence_dropped`: a 3-letter prefix of a
7-letter sequence at cutoff `0.50` is dropped while the full sequence
survives. -/
theorem truncated_sequence_dropped_witness :
    Redundancy.remove_redundancy
      [⟨['M','L','P','F','L','F','F'].take 3, "sp1", none, true, []⟩,
        ⟨['M','L','P','F','L','F','F'], "sp2", none, true, []⟩]
      (1/2) [] false 1 1 false =
      .ok [⟨['M','L','P','F','L','F','F'].take 3, "sp1", none, false, []⟩,
        ⟨['M','L','P','F','L','F','F'], "sp2", none, true, []⟩] :=
  truncated_sequence_dropped ['M','L','P','F','L','F','F'] 3 [] "sp1" "sp2"
    (by decide) (by decide)

/-! ## The quality scorer -/

/-- Claim C6: for every record with a non-empty sequence,
`_get_quality_scores` returns the vector
`(always_keep_rank, key_species_rank, metrics…, 1/length(sequence))`, where
`always_keep_rank` is `0` iff the record's always-keep flag is present and
true (absent flag gives `1`), `key_species_rank` is `0` iff the record's
species is in the supplied key-species set (empty set always gives `1`), the
metric entries are copied verbatim in fixed order, and the final element is
exactly `1` divided by the sequence length; it fails with an input error if
the sequence is empty. -/
theorem quality_scores_spec (row : Redundancy.SequenceRecord)
    (ks : List String) (q : Redundancy.QualityVector) :
    (row.sequence.length = 0 →
      Redundancy._get_quality_scores row ks =
        .error "sequence is missing or empty") ∧
    (row.sequence.length ≠ 0 →
      (Redundancy._get_quality_scores row ks).isOk = true) ∧
    (Redundancy._get_quality_scores row ks = .ok q →
      ((q.always_keep_rank = 0 ↔ row.always_keep = some true) ∧
        (q.always_keep_rank = 0 ∨ q.always_keep_rank = 1) ∧
        (q.key_species_rank = 0 ↔ row.species ∈ ks) ∧
        (q.key_species_rank = 0 ∨ q.key_species_rank = 1) ∧
        (ks = [] → q.key_species_rank = 1) ∧
        q.metrics =
          row.metrics ++ [(1 : ℚ) / (row.sequence.length : ℚ)])) := by
  refine ⟨?_, ?_, ?_⟩
  · intro h
    rw [Redundancy._get_quality_scores, if_pos h]
  · intro h
    rw [Redundancy._get_quality_scores, if_neg h]
    rfl
  · intro h
    obtain ⟨hq, -⟩ := get_quality_scores_ok_elim row ks q h
    subst hq
    refine ⟨?_, ?_, ?_, ?_, ?_, rfl⟩
    · by_cases hak : row.always_keep = some true
      · simp [hak]
      · simp only [if_neg hak]
        norm_num [hak]
    · by_cases hak : row.always_keep = some true
      · simp [hak]
      · simp [hak]
    · by_cases hsp : row.species ∈ ks
      · simp [hsp]
      · simp only [if_neg hsp]
        norm_num [hsp]
    · by_cases hsp : row.species ∈ ks
      · simp [hsp]
      · simp [hsp]
    · intro hks
      subst hks
      rw [if_neg (List.not_mem_nil row.species)]

/-- Concrete instances of `quality_scores_spec`: a populated record with an
always-keep flag and a matching key species, and an empty-sequence record
that is rejected. -/
theorem quality_scores_spec_witness :
    ((Redundancy.QualityVector.mk 0 0 [5, 1/2]).always_keep_rank = 0 ↔
      (Redundancy.SequenceRecord.mk ['A','B'] "sp" (some true) true
        [5]).always_keep = some true) ∧
    (Redundancy._get_quality_scores ⟨[], "sp", none, true, []⟩ ["sp"] =
      .error "sequence is missing or empty") ∧
    (Redundancy._get_quality_scores ⟨['A','B'], "sp", some true, true, [5]⟩
      ["sp"]).isOk = true ∧
    (Redundancy.QualityVector.mk 0 0 [5, 1/2]).metrics =
      (Redundancy.SequenceRecord.mk ['A','B'] "sp" (some true) true
        [5]).metrics ++
        [(1 : ℚ) / (((Redundancy.SequenceRecord.mk ['A','B'] "sp" (some true)
          true [5]).sequence.length : ℕ) : ℚ)] :=
  have hok : Redundancy._get_quality_scores
      ⟨['A','B'], "sp", some true, true, [5]⟩ ["sp"] =
      .ok ⟨0, 0, [5, 1/2]⟩ := by
    norm_num [Redundancy._get_quality_scores]
  ⟨((quality_scores_spec ⟨['A','B'], "sp", some true, true, [5]⟩ ["sp"]
      ⟨0, 0, [5, 1/2]⟩).2.2 hok).1,
    (quality_scores_spec ⟨[], "sp", none, true, []⟩ ["sp"]
      ⟨0, 0, [5, 1/2]⟩).1 rfl,
    (quality_scores_spec ⟨['A','B'], "sp", some true, true, [5]⟩ ["sp"]
      ⟨0, 0, [5, 1/2]⟩).2.1 (by decide),
    ((quality_scores_spec ⟨['A','B'], "sp", some true, true, [5]⟩ ["sp"]
      ⟨0, 0, [5, 1/2]⟩).2.2 hok).2.2.2.2.2⟩

/-! ## Argument validation -/

/-- Claim C7: `remove_redundancy` rejects a cutoff outside `[0,1]` with an
input error before looking at the table (the same error for every table,
and the caller's table is never mutated — the function is pure); a zero
thread count is rejected, an integer below `-1` is rejected, `-1` resolves
to the machine's core count, a request beyond the core count is clamped to
it, and a request between `1` and the core count is used as given; cutoffs
`0`, `0.5` and `1` with any thread count ≥ 1 pass validation; `silent` never
changes the result.  (Checks that `df` is a well-formed table and `silent`
boolean-like are type checks, enforced here by the embedding's types.) -/
theorem remove_redundancy_validation (c : ℚ) (nt : Int) (cores : Nat)
    (df : List Redundancy.SequenceRecord) (ks : List String) (dk : Bool)
    (silent : Bool) :
    ((c < 0 ∨ 1 < c) →
      Redundancy.remove_redundancy df c ks dk nt cores silent =
        .error "cutoff must be between 0 and 1") ∧
    (¬ (c < 0 ∨ 1 < c) → nt = 0 →
      Redundancy.remove_redundancy df c ks dk nt cores silent =
        .error "num_threads cannot be zero") ∧
    (¬ (c < 0 ∨ 1 < c) → nt < -1 →
      Redundancy.remove_redundancy df c ks dk nt cores silent =
        .error "num_threads must be an integer >= -1") ∧
    (nt = -1 → Redundancy.resolve_num_threads nt cores = .ok cores) ∧
    ((cores : Int) < nt → Redundancy.resolve_num_threads nt cores =
      .ok cores) ∧
    (1 ≤ nt → nt ≤ (cores : Int) → Redundancy.resolve_num_threads nt cores =
      .ok nt.toNat) ∧
    ((c = 0 ∨ c = 1/2 ∨ c = 1) → 1 ≤ nt →
      (Redundancy._check_args c nt cores).isOk = true) ∧
    (Redundancy.remove_redundancy df c ks dk nt cores true =
      Redundancy.remove_redundancy df c ks dk nt cores false) := by
  refine ⟨?_, ?_, ?_, ?_, ?_, ?_, ?_, rfl⟩
  · intro h
    rw [Redundancy.remove_redundancy, Redundancy._check_args, if_pos h]
  · intro hc h
    subst h
    rw [Redundancy.remove_redundancy, Redundancy._check_args, if_neg hc,
      Redundancy.resolve_num_threads, if_neg (by decide), if_pos rfl]
  · intro hc h
    rw [Redundancy.remove_redundancy, Redundancy._check_args, if_neg hc,
      Redundancy.resolve_num_threads, if_pos h]
  · intro h
    subst h
    rw [Redundancy.resolve_num_threads, if_neg (by decide),
      if_neg (by decide), if_pos (Or.inl rfl)]
  · intro h
    rw [Redundancy.resolve_num_threads, if_neg (by omega),
      if_neg (by omega), if_pos (Or.inr h)]
  · intro h1 h2
    rw [Redundancy.resolve_num_threads, if_neg (by omega),
      if_neg (by omega), if_neg (by omega)]
  · intro hc hnt
    have hc' : ¬ (c < 0 ∨ 1 < c) := by
      rcases hc with rfl | rfl | rfl <;> norm_num
    rw [Redundancy._check_args, if_neg hc', Redundancy.resolve_num_threads,
      if_neg (by omega), if_neg (by omega)]
    split
    · rfl
    · rfl

/-- Concrete instances of `remove_redundancy_validation`: an out-of-range
cutoff and a zero thread count are rejected on an arbitrary table, `-1`
threads resolve to all 4 cores, 9 threads are clamped to 4, 2 threads out of
4 stay 2, and cutoff `1/2` with 1 thread passes validation. -/
theorem remove_redundancy_validation_witness :
    Redundancy.remove_redundancy [] (3/2) [] false 1 4 true =
      .error "cutoff must be between 0 and 1" ∧
    Redundancy.remove_redundancy [] (1/2) [] false 0 4 true =
      .error "num_threads cannot be zero" ∧
    Redundancy.remove_redundancy [] (1/2) [] false (-2) 4 true =
      .error "num_threads must be an integer >= -1" ∧
    Redundancy.resolve_num_threads (-1) 4 = .ok 4 ∧
    Redundancy.resolve_num_threads 9 4 = .ok 4 ∧
    Redundancy.resolve_num_threads 2 4 = .ok (Int.toNat 2) ∧
    (Redundancy._check_args (1/2) 1 4).isOk = true :=
  ⟨(remove_redundancy_validation (3/2) 1 4 [] [] false true).1
      (by norm_num),
    (remove_redundancy_validation (1/2) 0 4 [] [] false true).2.1
      (by norm_num) rfl,
    (remove_redundancy_validation (1/2) (-2) 4 [] [] false true).2.2.1
      (by norm_num) (by decide),
    (remove_redundancy_validation (1/2) (-1) 4 [] [] false true).2.2.2.1 rfl,
    (remove_redundancy_validation (1/2) 9 4 [] [] false true).2.2.2.2.1
      (by decide),
    (remove_redundancy_validation (1/2) 2 4 [] [] false true).2.2.2.2.2.1
      (by decide) (by decide),
    (remove_redundancy_validation (1/2) 1 4 [] [] false
      true).2.2.2.2.2.2.1 (Or.inr (Or.inl rfl)) (by decide)⟩

end Topiary
